import Mathlib

/-!
Verification of the core batch pipeline of `cut_images_to_pdf.py`
(repository guojun21/pictureCut).

The embedding below translates the five pure/IO components of the source:

* Filename Codec: `extract_page_count`, `get_base_filename`
  (lines 27-46 of the source, Python `re` patterns implemented directly);
* Slicer: `cut_image_vertically` (lines 57-80);
* Strip Writer: `save_cut_images` (lines 83-92), over a small explicit
  filesystem state;
* Document Assembler: `images_to_pdf` (lines 95-124);
* Batch Orchestrator: `process_folder` (lines 382-449), with the
  filesystem-dependent per-file work (decode + write) abstracted by an
  environment, while the filename-driven control flow (discovery filter,
  skip branches, counters, log order) is modelled exactly.
-/

namespace PictureCut

instance {ε α : Type} [DecidableEq ε] [DecidableEq α] : DecidableEq (Except ε α) := fun x y =>
  match x, y with
  | Except.error a, Except.error b =>
    if h : a = b then isTrue (by subst h; rfl)
    else isFalse (fun hc => h (Except.error.inj hc))
  | Except.error _, Except.ok _ => isFalse (fun hc => Except.noConfusion hc)
  | Except.ok _, Except.error _ => isFalse (fun hc => Except.noConfusion hc)
  | Except.ok a, Except.ok b =>
    if h : a = b then isTrue (by subst h; rfl)
    else isFalse (fun hc => h (Except.ok.inj hc))

/-! ### Filename Codec

The Python source matches `r'-(\d+)\.(png|jpg|jpeg|PNG|JPG|JPEG)$'` with
`re.search` (line 32) and `r'^(.+?)-\d+\.(png|jpg|jpeg|PNG|JPG|JPEG)$'`
(line 43).  We implement those two regexes directly on `List Char`:
`re.search` of an end-anchored pattern scans candidate start positions
left to right; the non-greedy `(.+?)` tries the shortest non-empty
capture first.
-/

/-- The literal alternation `png|jpg|jpeg|PNG|JPG|JPEG` of the source.
The alternation is spelled out: there is no `re.IGNORECASE` flag, so
mixed-case extensions such as `Png` are not in the set. -/
def allowedExts : List (List Char) :=
  [['p', 'n', 'g'], ['j', 'p', 'g'], ['j', 'p', 'e', 'g'],
   ['P', 'N', 'G'], ['J', 'P', 'G'], ['J', 'P', 'E', 'G']]

/-- Python `int()` on a non-empty decimal digit string. -/
def digitsToNat (ds : List Char) : Nat :=
  ds.foldl (fun acc c => 10 * acc + (c.toNat - '0'.toNat)) 0

/-- Attempt to match the anchored pattern `-(\d+)\.(png|jpg|jpeg|PNG|JPG|JPEG)$`
at the head of `s`, where `s` runs to the end of the filename: a dash, then a
maximal non-empty digit run (`\d+` is greedy, and backtracking cannot help
because a shorter run leaves a digit where `\.` must match), then a dot,
then the whole remainder must be one of the six literal extensions (the
pattern is `$`-anchored).  Returns the captured page count. -/
def matchPageSuffixAt : List Char → Option Nat
  | [] => none
  | c :: rest =>
    if c = '-' then
      if rest.takeWhile Char.isDigit = [] then none
      else
        if (rest.dropWhile Char.isDigit).head? = some '.' ∧
            (rest.dropWhile Char.isDigit).tail ∈ allowedExts then
          some (digitsToNat (rest.takeWhile Char.isDigit))
        else none
    else none

/-- `re.search` of the end-anchored pattern: try each start position from the
left, return the first successful capture. -/
def searchPageSuffix : List Char → Option Nat
  | [] => none
  | c :: rest =>
    match matchPageSuffixAt (c :: rest) with
    | some n => some n
    | none => searchPageSuffix rest

/-- `extract_page_count` (source lines 27-35). -/
def extract_page_count (filename : String) : Option Nat :=
  searchPageSuffix filename.toList

/-- Scan for the split of `re.search(r'^(.+?)-\d+\.(ext)$', s)`: the
non-greedy `(.+?)` takes the shortest non-empty prefix after which the
rest of the string matches the anchored page suffix.  `acc` is the prefix
consumed so far; the capture is `acc ++ [c]` at the first success. -/
def baseAux : List Char → List Char → Option (List Char)
  | _, [] => none
  | acc, c :: rest =>
    if (matchPageSuffixAt rest).isSome then some (acc ++ [c])
    else baseAux (acc ++ [c]) rest

/-- `get_base_filename` (source lines 38-46). -/
def get_base_filename (input_filename : String) : Option String :=
  (baseAux [] input_filename.toList).map List.asString

example : extract_page_count "原密协议-5.png" = some 5 := by decide
example : extract_page_count "a-1.Png" = none := by decide
example : extract_page_count "-5.png" = some 5 := by decide
example : extract_page_count "notes.png" = none := by decide
example : extract_page_count "a-12-b-5.JPEG" = some 5 := by decide
example : get_base_filename "a-12-b-5.jpg" = some "a-12-b" := by decide
example : get_base_filename "-5.png" = none := by decide
example : get_base_filename "a-1.Png" = none := by decide

/-! #### Codec lemmas -/

theorem dot_not_digit : ('.' : Char).isDigit = false := by decide

theorem dash_not_digit : ('-' : Char).isDigit = false := by decide

theorem takeWhile_digits_dot (ds ext : List Char) (h : ∀ c ∈ ds, c.isDigit) :
    (ds ++ '.' :: ext).takeWhile Char.isDigit = ds ∧
      (ds ++ '.' :: ext).dropWhile Char.isDigit = '.' :: ext := by
  induction ds with
  | nil =>
    simp [List.takeWhile_cons, List.dropWhile_cons, dot_not_digit]
  | cons c t ih =>
    have hc : c.isDigit := h c (List.mem_cons_self _ _)
    have ht := ih (fun x hx => h x (List.mem_cons_of_mem _ hx))
    simp [List.takeWhile_cons, List.dropWhile_cons, hc, ht.1, ht.2]

/-- The anchored match at a fixed position succeeds exactly on strings of
the shape `-<digits>.<ext>` running to the end, capturing the digit run. -/
theorem matchPageSuffixAt_eq_some (t : List Char) (n : Nat) :
    matchPageSuffixAt t = some n ↔
      ∃ ds ext, t = '-' :: (ds ++ '.' :: ext) ∧ ds ≠ [] ∧ (∀ c ∈ ds, c.isDigit) ∧
        ext ∈ allowedExts ∧ n = digitsToNat ds := by
  constructor
  · intro h
    cases t with
    | nil => simp [matchPageSuffixAt] at h
    | cons c rest =>
      simp only [matchPageSuffixAt] at h
      by_cases hc : c = '-'
      · rw [if_pos hc] at h
        by_cases hds : rest.takeWhile Char.isDigit = []
        · rw [if_pos hds] at h; exact absurd h (by simp)
        · rw [if_neg hds] at h
          cases hafter : rest.dropWhile Char.isDigit with
          | nil =>
            rw [hafter] at h
            simp only [List.head?_nil] at h
            exact absurd h (by simp)
          | cons d e =>
            rw [hafter] at h
            simp only [List.head?_cons, List.tail_cons, Option.some.injEq] at h
            by_cases hde : d = '.' ∧ e ∈ allowedExts
            · rw [if_pos hde] at h
              refine ⟨rest.takeWhile Char.isDigit, e, ?_, hds, ?_, hde.2, ?_⟩
              · rw [hc]
                have hsplit := (List.takeWhile_append_dropWhile (p := Char.isDigit) (l := rest)).symm
                rw [hafter, hde.1] at hsplit
                rw [← hsplit]
              · intro x hx; exact List.mem_takeWhile_imp hx
              · exact (Option.some.inj h).symm
            · rw [if_neg hde] at h; exact absurd h (by simp)
      · rw [if_neg hc] at h; exact absurd h (by simp)
  · rintro ⟨ds, ext, rfl, hne, hdig, hext, rfl⟩
    obtain ⟨h1, h2⟩ := takeWhile_digits_dot ds ext hdig
    simp only [matchPageSuffixAt, h1, h2, List.head?_cons, List.tail_cons]
    simp [hne, hext]

theorem rev_append_decomp (p ds ext : List Char) :
    (p ++ '-' :: (ds ++ '.' :: ext)).reverse =
      ext.reverse ++ '.' :: (ds.reverse ++ '-' :: p.reverse) := by
  simp [List.reverse_append]

theorem rev_dot_decomp (ds ext : List Char) :
    (ds ++ '.' :: ext).reverse = ext.reverse ++ '.' :: ds.reverse := by
  simp [List.reverse_append]

theorem digits_dash_unique :
    ∀ (a₁ a₂ b₁ b₂ : List Char), (∀ c ∈ a₁, c.isDigit) → (∀ c ∈ a₂, c.isDigit) →
      a₁ ++ '-' :: b₁ = a₂ ++ '-' :: b₂ → a₁ = a₂ ∧ b₁ = b₂ := by
  intro a₁
  induction a₁ with
  | nil =>
    intro a₂ b₁ b₂ _ h₂ h
    cases a₂ with
    | nil => simpa using h
    | cons c t =>
      exfalso
      simp only [List.nil_append, List.cons_append, List.cons.injEq] at h
      have : ('-' : Char).isDigit := h.1 ▸ h₂ c (List.mem_cons_self _ _)
      rw [dash_not_digit] at this; exact Bool.false_ne_true this
  | cons c t ih =>
    intro a₂ b₁ b₂ h₁ h₂ h
    cases a₂ with
    | nil =>
      exfalso
      simp only [List.nil_append, List.cons_append, List.cons.injEq] at h
      have : ('-' : Char).isDigit := h.1 ▸ h₁ c (List.mem_cons_self _ _)
      rw [dash_not_digit] at this; exact Bool.false_ne_true this
    | cons c' t' =>
      simp only [List.cons_append, List.cons.injEq] at h
      obtain ⟨ht, hb⟩ := ih t' b₁ b₂ (fun x hx => h₁ x (List.mem_cons_of_mem _ hx))
        (fun x hx => h₂ x (List.mem_cons_of_mem _ hx)) h.2
      exact ⟨by rw [h.1, ht], hb⟩

theorem allowedExts_length : ∀ e ∈ allowedExts, e.length = 3 ∨ e.length = 4 := by decide

theorem allowedExts_head : ∀ e ∈ allowedExts, e.head? ≠ some '.' := by decide

theorem ext_dot_aux (e₁ e₂ r₁ r₂ : List Char) (h₁ : e₁ ∈ allowedExts)
    (h₂ : e₂ ∈ allowedExts) (hlen : e₁.length ≤ e₂.length)
    (h : e₁.reverse ++ '.' :: r₁ = e₂.reverse ++ '.' :: r₂) : e₁ = e₂ ∧ r₁ = r₂ := by
  rcases Nat.lt_or_ge e₁.length e₂.length with hlt | hge
  · exfalso
    have hl₁ := allowedExts_length e₁ h₁
    have hl₂ := allowedExts_length e₂ h₂
    have hlen4 : e₂.length = e₁.length + 1 := by omega
    have h' : (e₁.reverse ++ ['.']) ++ r₁ = e₂.reverse ++ '.' :: r₂ := by
      rw [List.append_assoc]; simpa using h
    obtain ⟨heq, _⟩ := List.append_inj h' (by simp [hlen4])
    have he₂ : e₂ = '.' :: e₁ := by
      have := congrArg List.reverse heq
      simp at this
      exact this.symm
    exact allowedExts_head e₂ h₂ (by rw [he₂]; rfl)
  · have hlen' : e₁.length = e₂.length := Nat.le_antisymm hlen hge
    obtain ⟨heq, hrest⟩ := List.append_inj h (by simp [hlen'])
    refine ⟨List.reverse_injective heq, ?_⟩
    exact (List.cons.inj hrest).2

theorem ext_dot_unique (e₁ e₂ r₁ r₂ : List Char) (h₁ : e₁ ∈ allowedExts)
    (h₂ : e₂ ∈ allowedExts)
    (h : e₁.reverse ++ '.' :: r₁ = e₂.reverse ++ '.' :: r₂) : e₁ = e₂ ∧ r₁ = r₂ := by
  rcases Nat.le_total e₁.length e₂.length with hle | hle
  · exact ext_dot_aux e₁ e₂ r₁ r₂ h₁ h₂ hle h
  · obtain ⟨ha, hb⟩ := ext_dot_aux e₂ e₁ r₂ r₁ h₂ h₁ hle h.symm
    exact ⟨ha.symm, hb.symm⟩

/-- A filename has at most one decomposition `prefix ++ "-" ++ digits ++ "." ++ ext`
with non-empty all-digit `digits` and `ext` in the allowed set. -/
theorem decomp_unique (p₁ ds₁ e₁ p₂ ds₂ e₂ : List Char)
    (hd₁ : ∀ c ∈ ds₁, c.isDigit) (he₁ : e₁ ∈ allowedExts)
    (hd₂ : ∀ c ∈ ds₂, c.isDigit) (he₂ : e₂ ∈ allowedExts)
    (h : p₁ ++ '-' :: (ds₁ ++ '.' :: e₁) = p₂ ++ '-' :: (ds₂ ++ '.' :: e₂)) :
    p₁ = p₂ ∧ ds₁ = ds₂ ∧ e₁ = e₂ := by
  have hr := congrArg List.reverse h
  rw [rev_append_decomp, rev_append_decomp] at hr
  obtain ⟨hee, hrest⟩ := ext_dot_unique e₁ e₂ _ _ he₁ he₂ hr
  obtain ⟨hdd, hpp⟩ := digits_dash_unique ds₁.reverse ds₂.reverse _ _
    (fun c hc => hd₁ c (List.mem_reverse.mp hc))
    (fun c hc => hd₂ c (List.mem_reverse.mp hc)) hrest
  refine ⟨?_, ?_, hee⟩
  · have := congrArg List.reverse hpp; simpa using this
  · have := congrArg List.reverse hdd; simpa using this

/-- `re.search` of the page-suffix pattern on a canonically shaped filename
captures exactly the digit run before the extension: any earlier candidate
start position would force a dash inside the digit run. -/
theorem searchPageSuffix_canonical (p ds ext : List Char) (hds : ds ≠ [])
    (hdig : ∀ c ∈ ds, c.isDigit) (hext : ext ∈ allowedExts) :
    searchPageSuffix (p ++ '-' :: (ds ++ '.' :: ext)) = some (digitsToNat ds) := by
  induction p with
  | nil =>
    have hm : matchPageSuffixAt ('-' :: (ds ++ '.' :: ext)) = some (digitsToNat ds) :=
      (matchPageSuffixAt_eq_some _ _).mpr ⟨ds, ext, rfl, hds, hdig, hext, rfl⟩
    simp [searchPageSuffix, hm]
  | cons c p' ih =>
    rw [List.cons_append]
    simp only [searchPageSuffix]
    cases hmc : matchPageSuffixAt (c :: (p' ++ '-' :: (ds ++ '.' :: ext))) with
    | some m =>
      exfalso
      obtain ⟨ds', ext', hshape, _, hdig', hext', _⟩ :=
        (matchPageSuffixAt_eq_some _ _).mp hmc
      have hmid : p' ++ '-' :: (ds ++ '.' :: ext) = ds' ++ '.' :: ext' :=
        (List.cons.inj hshape).2
      have hrev := congrArg List.reverse hmid
      rw [rev_append_decomp, rev_dot_decomp] at hrev
      obtain ⟨_, hdsr⟩ := ext_dot_unique ext ext' _ _ hext hext' hrev
      have hmem : ('-' : Char) ∈ ds' := by
        have : ('-' : Char) ∈ ds'.reverse := by
          rw [← hdsr]
          exact List.mem_append_right _ (List.mem_cons_self _ _)
        exact List.mem_reverse.mp this
      have : ('-' : Char).isDigit := hdig' '-' hmem
      rw [dash_not_digit] at this; exact Bool.false_ne_true this
    | none => exact ih

/-- The non-greedy capture of `get_base_filename`'s regex on a canonically
shaped filename is exactly the base: the first split point whose remainder
matches the page-suffix pattern is the canonical one. -/
theorem baseAux_canonical (base ds ext : List Char) (hds : ds ≠ [])
    (hdig : ∀ c ∈ ds, c.isDigit) (hext : ext ∈ allowedExts) :
    ∀ (rest acc : List Char), acc ++ rest = base ++ '-' :: (ds ++ '.' :: ext) →
      acc.length < base.length → baseAux acc rest = some base := by
  intro rest
  induction rest with
  | nil =>
    intro acc heq hlt
    exfalso
    have := congrArg List.length heq
    simp [List.length_append] at this
    omega
  | cons c rest' ih =>
    intro acc heq hlt
    simp only [baseAux]
    have heq2 : (acc ++ [c]) ++ rest' = base ++ '-' :: (ds ++ '.' :: ext) := by
      rw [List.append_assoc]; simpa using heq
    by_cases hm : (matchPageSuffixAt rest').isSome
    · rw [if_pos hm]
      obtain ⟨m, hm'⟩ := Option.isSome_iff_exists.mp hm
      obtain ⟨ds', ext', hshape, _, hdig', hext', _⟩ :=
        (matchPageSuffixAt_eq_some _ _).mp hm'
      rw [hshape] at heq2
      obtain ⟨hpp, _, _⟩ := decomp_unique (acc ++ [c]) ds' ext' base ds ext
        hdig' hext' hdig hext heq2
      rw [hpp]
    · rw [if_neg hm]
      apply ih (acc ++ [c]) heq2
      rcases Nat.lt_or_ge (acc.length + 1) base.length with hlt2 | hge
      · simpa using hlt2
      · exfalso
        have hlen1 : (acc ++ [c]).length = base.length := by
          simp; omega
        obtain ⟨_, hrest⟩ := List.append_inj heq2 hlen1
        have : matchPageSuffixAt rest' = some (digitsToNat ds) := by
          rw [hrest]
          exact (matchPageSuffixAt_eq_some _ _).mpr ⟨ds, ext, rfl, hds, hdig, hext, rfl⟩
        rw [this] at hm
        exact hm (by rfl)

theorem toList_asString (l : List Char) : (List.asString l).toList = l := rfl

/-- `re.search` scans every suffix: if the anchored pattern matches at some
suffix, the search succeeds. -/
theorem searchPageSuffix_isSome_of_tail :
    ∀ (l t : List Char), t <:+ l → (matchPageSuffixAt t).isSome →
      (searchPageSuffix l).isSome := by
  intro l
  induction l with
  | nil =>
    intro t ht hm
    rw [List.suffix_nil.mp ht] at hm
    simp [matchPageSuffixAt] at hm
  | cons c l' ih =>
    intro t ht hm
    simp only [searchPageSuffix]
    cases hmc : matchPageSuffixAt (c :: l') with
    | some m => rfl
    | none =>
      rcases List.suffix_cons_iff.mp ht with h1 | h2
      · rw [h1, hmc] at hm; exact absurd hm (by simp)
      · exact ih t h2 hm

/-- A successful non-greedy base capture needs the page-suffix pattern to
match at some proper suffix. -/
theorem baseAux_some_tail :
    ∀ (l acc b : List Char), baseAux acc l = some b →
      ∃ t, t <:+ l ∧ (matchPageSuffixAt t).isSome := by
  intro l
  induction l with
  | nil => intro acc b h; simp [baseAux] at h
  | cons c rest ih =>
    intro acc b h
    simp only [baseAux] at h
    by_cases hm : (matchPageSuffixAt rest).isSome
    · exact ⟨rest, List.suffix_cons c rest, hm⟩
    · rw [if_neg hm] at h
      obtain ⟨t, ht, hts⟩ := ih _ _ h
      exact ⟨t, ht.trans (List.suffix_cons c rest), hts⟩

/-- A filename rejected by `extract_page_count` is also rejected by
`get_base_filename`: the latter's regex is the former's with a non-empty
prefix capture prepended. -/
theorem get_base_none_of_extract_none (f : String) (h : extract_page_count f = none) :
    get_base_filename f = none := by
  unfold get_base_filename
  cases hb : baseAux [] f.toList with
  | none => rfl
  | some b =>
    exfalso
    obtain ⟨t, ht, hts⟩ := baseAux_some_tail _ _ _ hb
    have hsome := searchPageSuffix_isSome_of_tail _ _ ht hts
    unfold extract_page_count at h
    rw [h] at hsome
    exact absurd hsome (by simp)

/-- `extract_page_count` on a canonically shaped filename. -/
theorem extract_page_count_canonical (base ds ext : List Char) (hds : ds ≠ [])
    (hdig : ∀ c ∈ ds, c.isDigit) (hext : ext ∈ allowedExts) :
    extract_page_count (base ++ '-' :: (ds ++ '.' :: ext)).asString =
      some (digitsToNat ds) := by
  unfold extract_page_count
  rw [toList_asString]
  exact searchPageSuffix_canonical base ds ext hds hdig hext

/-- `get_base_filename` on a canonically shaped filename with a non-empty base. -/
theorem get_base_filename_canonical (base ds ext : List Char) (hb : base ≠ [])
    (hds : ds ≠ []) (hdig : ∀ c ∈ ds, c.isDigit) (hext : ext ∈ allowedExts) :
    get_base_filename (base ++ '-' :: (ds ++ '.' :: ext)).asString =
      some base.asString := by
  unfold get_base_filename
  rw [toList_asString]
  rw [baseAux_canonical base ds ext hds hdig hext (base ++ '-' :: (ds ++ '.' :: ext)) []
    (by simp) (by simpa using List.length_pos.mpr hb)]
  rfl

/-! ### Slicer

`cut_image_vertically` (source lines 57-80).  An image contributes only its
size to the slicing geometry, so a strip is modelled by its
(width, height) pair.  `num_parts` comes in as a Python `int`, so it is an
`Int` here; Python `//` is floor division (`Int.fdiv`), `range n` is empty
for `n ≤ 0`, and `PIL.Image.crop((0, top, width, bottom))` yields an image
of size `(width, bottom - top)`.  Python raises `ZeroDivisionError` at
`height // num_parts` when `num_parts = 0`; an escaping exception is the
`Except.error` case. -/
def cut_image_vertically (width height : Nat) (num_parts : Int) :
    Except String (List (Int × Int)) :=
  if num_parts = 0 then Except.error "ZeroDivisionError"
  else
    let part_height : Int := Int.fdiv height num_parts
    Except.ok ((List.range num_parts.toNat).map (fun (i : Nat) =>
      let top : Int := (i : Int) * part_height
      let bottom : Int :=
        if (i : Int) < num_parts - 1 then ((i : Int) + 1) * part_height else height
      ((width : Int), bottom - top)))

example : cut_image_vertically 7 300 3 = Except.ok [(7, 100), (7, 100), (7, 100)] := by decide
example : cut_image_vertically 7 10 3 = Except.ok [(7, 3), (7, 3), (7, 4)] := by decide
example : cut_image_vertically 7 10 1 = Except.ok [(7, 10)] := by decide
example : cut_image_vertically 7 10 (-1) = Except.ok [] := by decide
example : cut_image_vertically 7 10 0 = Except.error "ZeroDivisionError" := by decide

/-! ### Document Assembler -/

/-- The PIL image modes the assembler distinguishes: line 105 of the source
only tests `img.mode != 'RGB'`. -/
inductive ImgMode where
  | RGB : ImgMode
  | RGBA : ImgMode
  | P : ImgMode
  | L : ImgMode
deriving DecidableEq, Repr

/-- A decoded PIL image: its mode plus a tag standing for its pixel
content, so that page order can be traced through the assembler. -/
structure PImage where
  mode : ImgMode
  tag : Nat
deriving DecidableEq, Repr

/-- Outcome of `images_to_pdf`: either the function returns without
writing anything, or it writes exactly one file whose pages are listed
in order. -/
inductive PdfOutcome where
  | noWrite : PdfOutcome
  | wrote : List PImage → PdfOutcome
deriving DecidableEq, Repr

/-- `images_to_pdf` (source lines 95-124).  `if not images: return` is the
empty-guard; each non-RGB image is converted with `img.convert('RGB')`
(same content, RGB mode); `save(..., save_all=True, append_images=rest)`
writes the first image plus the rest as further pages, and the
single-image branch writes a one-page file. -/
def images_to_pdf (images : List PImage) : PdfOutcome :=
  if images = [] then PdfOutcome.noWrite
  else
    let rgb_images := images.map (fun img =>
      if img.mode ≠ ImgMode.RGB then { img with mode := ImgMode.RGB } else img)
    if rgb_images.length > 1 then PdfOutcome.wrote rgb_images
    else PdfOutcome.wrote rgb_images

example : images_to_pdf [] = PdfOutcome.noWrite := by decide
example : images_to_pdf [⟨ImgMode.P, 4⟩] = PdfOutcome.wrote [⟨ImgMode.RGB, 4⟩] := by decide

/-! ### Strip Writer -/

/-- The slice of filesystem state the Strip Writer touches: which
directories exist, and the files written so far (in write order). -/
structure StripFS where
  dirs : List String
  files : List String
deriving DecidableEq, Repr

/-- `os.path.join` for a directory with no trailing slash and a relative
name, as used at source line 89. -/
def path_join (a b : String) : String := a ++ "/" ++ b

/-- The strip filename `f"{base_filename}-第{i}页.png"` of source line 89. -/
def stripName (base : String) (i : Nat) : String :=
  base ++ "-第" ++ toString i ++ "页.png"

/-- The loop of `save_cut_images`: `for i, img in enumerate(images, 1)`.
`img.save(output_path, 'PNG')` opens `output_path` for writing, which
raises `FileNotFoundError` when the directory does not exist (the
function itself never creates it); otherwise the file is written and its
path appended to `saved_paths`. -/
def saveLoop (base out : String) :
    List PImage → Nat → StripFS → List String → Except String (List String × StripFS)
  | [], _, fs, saved => Except.ok (saved, fs)
  | _ :: rest, i, fs, saved =>
    if out ∈ fs.dirs then
      saveLoop base out rest (i + 1)
        { fs with files := fs.files ++ [path_join out (stripName base i)] }
        (saved ++ [path_join out (stripName base i)])
    else Except.error "FileNotFoundError"

/-- `save_cut_images` (source lines 83-92). -/
def save_cut_images (images : List PImage) (base_filename output_folder : String)
    (fs : StripFS) : Except String (List String × StripFS) :=
  saveLoop base_filename output_folder images 1 fs []

example :
    save_cut_images [⟨ImgMode.RGB, 0⟩, ⟨ImgMode.RGB, 1⟩] "r" "o" ⟨["o"], []⟩ =
      Except.ok (["o/r-第1页.png", "o/r-第2页.png"],
        ⟨["o"], ["o/r-第1页.png", "o/r-第2页.png"]⟩) := by decide
example :
    save_cut_images [⟨ImgMode.RGB, 0⟩] "r" "o" ⟨[], []⟩ =
      Except.error "FileNotFoundError" := by decide

/-! ### Batch Orchestrator

`process_folder` (source lines 382-449).  The filename-driven control
flow is modelled exactly with the codec functions above; the
filesystem-dependent pieces are an environment: whether `folder_path` is
a directory, whether `os.makedirs(output_folder, exist_ok=True)` raises,
the `os.listdir` result, and whether the slice/save/assemble body raises
for a given file.  Intermediate progress strings are abstracted into
`LogEvent`s, one per logged decision point. -/

inductive LogEvent where
  | invalidDir : LogEvent
  | noFiles : LogEvent
  | found : Nat → LogEvent
  | processing : String → Nat → LogEvent
  | skipNoPageCount : String → LogEvent
  | skipNoBase : String → LogEvent
  | fileDone : String → LogEvent
  | fileError : String → LogEvent
  | summary : Nat → Nat → LogEvent
deriving DecidableEq, Repr

/-- The filesystem-dependent behaviour of one `process_folder` run:
whether `os.path.isdir(folder_path)` holds, whether
`os.makedirs(output_folder, exist_ok=True)` (line 389) raises, whether
`os.listdir(folder_path)` (line 392) raises - both of those calls run
outside any `try`, so either exception escapes - and, when the listing
succeeds, its entries and whether the slice/save/assemble body raises for
a given file. -/
structure FolderEnv where
  isDir : Bool
  makedirsFails : Bool
  listdirFails : Bool
  listing : List String
  fileFails : String → Bool

/-- What `process_folder` hands back: the returned boolean plus the final
counter values and the ordered log. -/
structure FolderResult where
  success : Bool
  logs : List LogEvent
  success_count : Nat
  error_count : Nat
deriving DecidableEq, Repr

/-- The discovery filter of source line 393,
`re.search(r'-\d+\.(png|jpg|jpeg|PNG|JPG|JPEG)$', f)`: literally the same
regex as `extract_page_count`, so it is expressed through it. -/
def discoveryMatches (f : String) : Bool := (extract_page_count f).isSome

/-- The body of the per-file loop (source lines 405-446): extract the page
count (skip + `continue` if `None`), log the processing line, extract the
base name (skip + `continue` if `None`), then run slice/save/assemble -
any exception there is caught by the `except` arm, logged, and counted as
one failure; otherwise the file counts as one success.  Result:
(log events, success increment, error increment). -/
def processFile (fails : String → Bool) (f : String) : List LogEvent × Nat × Nat :=
  match extract_page_count f with
  | none => ([LogEvent.skipNoPageCount f], 0, 0)
  | some n =>
    match get_base_filename f with
    | none => ([LogEvent.processing f n, LogEvent.skipNoBase f], 0, 0)
    | some _ =>
      if fails f then ([LogEvent.processing f n, LogEvent.fileError f], 0, 1)
      else ([LogEvent.processing f n, LogEvent.fileDone f], 1, 0)

/-- One iteration of the loop folded over `(success_count, error_count, log)`. -/
def folderStep (fails : String → Bool) (st : Nat × Nat × List LogEvent) (f : String) :
    Nat × Nat × List LogEvent :=
  (st.1 + (processFile fails f).2.1, st.2.1 + (processFile fails f).2.2,
    st.2.2 ++ (processFile fails f).1)

/-- `process_folder` (source lines 382-449).  Note that
`os.makedirs(output_folder, exist_ok=True)` at line 389 and
`os.listdir(folder_path)` at line 392 both run outside any `try` (only
the per-file body at lines 406-446 is guarded), so an exception from
either escapes the function (`Except.error`); the invalid-directory
check and the empty-discovery check both `return False`. -/
def process_folder (env : FolderEnv) : Except String FolderResult :=
  if env.isDir = false then
    Except.ok ⟨false, [LogEvent.invalidDir], 0, 0⟩
  else if env.makedirsFails then
    Except.error "OSError: cannot create output folder"
  else if env.listdirFails then
    Except.error "OSError: cannot list input folder"
  else
    let image_files := env.listing.filter discoveryMatches
    if image_files = [] then
      Except.ok ⟨false, [LogEvent.noFiles], 0, 0⟩
    else
      let res := image_files.foldl (folderStep env.fileFails)
        (0, 0, [LogEvent.found image_files.length])
      Except.ok ⟨true, res.2.2 ++ [LogEvent.summary res.1 res.2.1], res.1, res.2.1⟩

example :
    process_folder ⟨true, false, false, ["report-2.png", "notes.png"], fun _ => false⟩ =
      Except.ok ⟨true,
        [LogEvent.found 1, LogEvent.processing "report-2.png" 2,
         LogEvent.fileDone "report-2.png", LogEvent.summary 1 0], 1, 0⟩ := by decide
example :
    process_folder ⟨true, false, false, ["-5.png"], fun _ => false⟩ =
      Except.ok ⟨true,
        [LogEvent.found 1, LogEvent.processing "-5.png" 5,
         LogEvent.skipNoBase "-5.png", LogEvent.summary 0 0], 0, 0⟩ := by decide
example :
    process_folder ⟨true, true, false, ["a-1.png"], fun _ => false⟩ =
      Except.error "OSError: cannot create output folder" := by decide
example :
    process_folder ⟨true, false, false, ["notes.png"], fun _ => false⟩ =
      Except.ok ⟨false, [LogEvent.noFiles], 0, 0⟩ := by decide

/-! #### Orchestrator lemmas -/

/-- The per-file log events of a run, in listing order. -/
def filesLog (fails : String → Bool) : List String → List LogEvent
  | [] => []
  | f :: rest => (processFile fails f).1 ++ filesLog fails rest

/-- A file increments `success_count` iff both parses succeed and the
slice/save/assemble body does not raise. -/
def fileSucceeds (fails : String → Bool) (f : String) : Bool :=
  (get_base_filename f).isSome && !(fails f)

/-- A file increments `error_count` iff both parses succeed and the
slice/save/assemble body raises.  (`extract_page_count` succeeding is
implied: when it fails, `get_base_filename` fails too.) -/
def fileErrors (fails : String → Bool) (f : String) : Bool :=
  (get_base_filename f).isSome && fails f

theorem processFile_succ (fails : String → Bool) (f : String) :
    (processFile fails f).2.1 = if fileSucceeds fails f then 1 else 0 := by
  unfold processFile fileSucceeds
  cases hx : extract_page_count f with
  | none => simp [get_base_none_of_extract_none f hx]
  | some n =>
    cases hb : get_base_filename f with
    | none => simp
    | some b => cases hf : fails f <;> simp [hf]

theorem processFile_err (fails : String → Bool) (f : String) :
    (processFile fails f).2.2 = if fileErrors fails f then 1 else 0 := by
  unfold processFile fileErrors
  cases hx : extract_page_count f with
  | none => simp [get_base_none_of_extract_none f hx]
  | some n =>
    cases hb : get_base_filename f with
    | none => simp
    | some b => cases hf : fails f <;> simp [hf]

/-- Full characterization of the per-file fold: counters become filter
lengths and the log accumulates each file's events in order. -/
theorem foldl_folderStep_eq (fails : String → Bool) :
    ∀ (l : List String) (s e : Nat) (logs : List LogEvent),
      l.foldl (folderStep fails) (s, e, logs) =
        (s + (l.filter (fileSucceeds fails)).length,
         e + (l.filter (fileErrors fails)).length,
         logs ++ filesLog fails l) := by
  intro l
  induction l with
  | nil => intro s e logs; simp [filesLog]
  | cons f rest ih =>
    intro s e logs
    rw [List.foldl_cons]
    have hstep : folderStep fails (s, e, logs) f =
        (s + (processFile fails f).2.1, e + (processFile fails f).2.2,
          logs ++ (processFile fails f).1) := rfl
    rw [hstep, ih]
    rw [processFile_succ, processFile_err]
    simp only [List.filter_cons, filesLog, List.append_assoc]
    by_cases h1 : fileSucceeds fails f <;> by_cases h2 : fileErrors fails f <;>
      simp [h1, h2, Prod.ext_iff] <;> omega

/-- A successful run of `process_folder` over a non-empty discovery list,
written out in closed form. -/
theorem process_folder_run (env : FolderEnv) (hdir : env.isDir = true)
    (hmk : env.makedirsFails = false) (hld : env.listdirFails = false)
    (hne : env.listing.filter discoveryMatches ≠ []) :
    process_folder env = Except.ok
      ⟨true,
        (LogEvent.found (env.listing.filter discoveryMatches).length ::
          filesLog env.fileFails (env.listing.filter discoveryMatches)) ++
          [LogEvent.summary
            ((env.listing.filter discoveryMatches).filter (fileSucceeds env.fileFails)).length
            ((env.listing.filter discoveryMatches).filter (fileErrors env.fileFails)).length],
        ((env.listing.filter discoveryMatches).filter (fileSucceeds env.fileFails)).length,
        ((env.listing.filter discoveryMatches).filter (fileErrors env.fileFails)).length⟩ := by
  simp only [process_folder]
  rw [if_neg (by simp [hdir]), if_neg (by simp [hmk]), if_neg (by simp [hld]), if_neg hne]
  rw [foldl_folderStep_eq]
  simp

/-- `filesLog` over discovered files never contains a
`skipNoPageCount` event: discovery guarantees `extract_page_count`
succeeds. -/
theorem filesLog_no_skipNoPageCount (fails : String → Bool) :
    ∀ (l : List String), (∀ f ∈ l, (extract_page_count f).isSome) →
      ∀ g, LogEvent.skipNoPageCount g ∉ filesLog fails l := by
  intro l
  induction l with
  | nil => intro _ g; simp [filesLog]
  | cons f rest ih =>
    intro h g hmem
    rw [filesLog, List.mem_append] at hmem
    rcases hmem with hmem | hmem
    · have hx := h f (List.mem_cons_self _ _)
      obtain ⟨n, hn⟩ := Option.isSome_iff_exists.mp hx
      unfold processFile at hmem
      rw [hn] at hmem
      cases hb : get_base_filename f with
      | none => rw [hb] at hmem; simp at hmem
      | some b =>
        rw [hb] at hmem
        cases hf : fails f <;> rw [hf] at hmem <;> simp at hmem
    · exact ih (fun x hx => h x (List.mem_cons_of_mem _ hx)) g hmem

/-! #### Strip Writer lemmas -/

/-- The strip paths `{out}/{base}-第{j}页.png` for `n` strips numbered
consecutively from `i`. -/
def stripPaths (out base : String) (n i : Nat) : List String :=
  (List.range n).map (fun k => path_join out (stripName base (k + i)))

theorem stripPaths_succ (out base : String) (m i : Nat) :
    stripPaths out base (m + 1) i =
      path_join out (stripName base i) :: stripPaths out base m (i + 1) := by
  unfold stripPaths
  rw [List.range_succ_eq_map, List.map_cons, List.map_map, Nat.zero_add]
  congr 1
  apply List.map_congr_left
  intro a _
  show path_join out (stripName base (a + 1 + i)) = path_join out (stripName base (a + (i + 1)))
  congr 2
  omega

/-- When the output directory exists, the write loop succeeds and appends
one path per strip, numbered consecutively from `i`. -/
theorem saveLoop_ok (base out : String) :
    ∀ (images : List PImage) (i : Nat) (fs : StripFS) (saved : List String),
      out ∈ fs.dirs →
      saveLoop base out images i fs saved = Except.ok
        (saved ++ stripPaths out base images.length i,
         { fs with files := fs.files ++ stripPaths out base images.length i }) := by
  intro images
  induction images with
  | nil => intro i fs saved hdir; simp [saveLoop, stripPaths]
  | cons img rest ih =>
    intro i fs saved hdir
    simp only [saveLoop]
    rw [if_pos hdir]
    rw [ih (i + 1) { fs with files := fs.files ++ [path_join out (stripName base i)] }
      (saved ++ [path_join out (stripName base i)]) hdir]
    rw [List.length_cons, stripPaths_succ]
    simp [List.append_assoc]

/-! #### Slicer lemmas -/

/-- Python `//` on two naturals agrees with `Nat` division. -/
theorem fdiv_natCast (a b : Nat) : Int.fdiv (a : Int) (b : Int) = ((a / b : Nat) : Int) := by
  cases a with
  | zero =>
    show Int.fdiv (Int.ofNat 0) (Int.ofNat b) = Int.ofNat (0 / b)
    rw [Nat.zero_div]
    rfl
  | succ m =>
    show Int.fdiv (Int.ofNat (m + 1)) (Int.ofNat b) = Int.ofNat ((m + 1) / b)
    rfl

/-- With a positive part count the slicer returns the strip list of the
source loop, written out as a map over `range n`. -/
theorem cut_image_vertically_ok (width height n : Nat) (hn : 1 ≤ n) :
    cut_image_vertically width height (n : Int) =
      Except.ok ((List.range n).map (fun (i : Nat) =>
        ((width : Int),
          (if (i : Int) < (n : Int) - 1 then
              ((i : Int) + 1) * Int.fdiv (height : Int) (n : Int)
            else (height : Int)) - (i : Int) * Int.fdiv (height : Int) (n : Int)))) := by
  have hne : ¬((n : Int) = 0) := by
    simp only [Int.natCast_eq_zero]
    omega
  unfold cut_image_vertically
  rw [if_neg hne, Int.toNat_natCast]

/-! ### Claim theorems -/

/-- Claim C1: for every image of height `h` and width `w` and every
`N ≥ 1`, `cut_image_vertically` returns exactly `N` strips, each of width
`w`; strips `1..N-1` have height `⌊h/N⌋`, the last strip has height
`h - (N-1)*⌊h/N⌋`, the heights sum to `h` (exact coverage), and `N = 1`
yields one strip with the source dimensions. -/
theorem cut_image_vertically_exact_cover (width height n : Nat) (hn : 1 ≤ n) :
    ∃ strips : List (Int × Int),
      cut_image_vertically width height (n : Int) = Except.ok strips ∧
      strips.length = n ∧
      (∀ s ∈ strips, s.1 = (width : Int)) ∧
      (∀ i : Nat, i < n - 1 → strips[i]? =
        some ((width : Int), ((height / n : Nat) : Int))) ∧
      strips.getLast? =
        some ((width : Int),
          (height : Int) - ((n - 1 : Nat) : Int) * ((height / n : Nat) : Int)) ∧
      (strips.map Prod.snd).sum = (height : Int) ∧
      (n = 1 → strips = [((width : Int), (height : Int))]) := by
  obtain ⟨m, rfl⟩ : ∃ m, n = m + 1 := ⟨n - 1, by omega⟩
  have hfd : Int.fdiv (height : Int) ((m + 1 : Nat) : Int) =
      ((height / (m + 1) : Nat) : Int) := fdiv_natCast height (m + 1)
  have hlist : (List.range (m + 1)).map (fun (i : Nat) =>
        ((width : Int),
          (if (i : Int) < ((m + 1 : Nat) : Int) - 1 then
              ((i : Int) + 1) * Int.fdiv (height : Int) ((m + 1 : Nat) : Int)
            else (height : Int)) - (i : Int) * Int.fdiv (height : Int) ((m + 1 : Nat) : Int))) =
      (List.range (m + 1)).map (fun (i : Nat) =>
        ((width : Int),
          if i < m then ((height / (m + 1) : Nat) : Int)
          else (height : Int) - (m : Int) * ((height / (m + 1) : Nat) : Int))) := by
    apply List.map_congr_left
    intro i hi
    rw [List.mem_range] at hi
    rw [hfd]
    by_cases him : i < m
    · rw [if_pos (by push_cast; omega), if_pos him]
      simp only [Prod.mk.injEq, true_and]
      ring
    · have hiem : i = m := by omega
      subst hiem
      rw [if_neg (by push_cast; omega), if_neg him]
  refine ⟨(List.range (m + 1)).map (fun (i : Nat) =>
      ((width : Int),
        if i < m then ((height / (m + 1) : Nat) : Int)
        else (height : Int) - (m : Int) * ((height / (m + 1) : Nat) : Int))),
    ?_, ?_, ?_, ?_, ?_, ?_, ?_⟩
  · rw [cut_image_vertically_ok width height (m + 1) hn, hlist]
  · simp
  · intro s hs
    rw [List.mem_map] at hs
    obtain ⟨i, -, rfl⟩ := hs
    rfl
  · intro i hilt
    have him : i < m := by omega
    rw [List.getElem?_map, List.getElem?_range (by omega : i < m + 1)]
    simp [him]
  · rw [List.range_succ, List.map_append, List.map_singleton, List.getLast?_concat]
    simp [Nat.add_sub_cancel]
  · rw [List.range_succ, List.map_append, List.map_singleton, List.map_append,
      List.map_singleton, List.sum_append]
    have hsum1 : ((List.range m).map (fun (i : Nat) =>
          ((width : Int),
            if i < m then ((height / (m + 1) : Nat) : Int)
            else (height : Int) - (m : Int) * ((height / (m + 1) : Nat) : Int)))).map Prod.snd
        = List.replicate m ((height / (m + 1) : Nat) : Int) := by
      rw [List.map_map]
      apply List.eq_replicate_iff.mpr
      refine ⟨by simp, ?_⟩
      intro b hb
      rw [List.mem_map] at hb
      obtain ⟨i, hi, rfl⟩ := hb
      rw [List.mem_range] at hi
      simp [hi]
    rw [hsum1, List.sum_replicate]
    simp [nsmul_eq_mul]
  · intro h1
    have hm0 : m = 0 := by omega
    subst hm0
    simp [List.range_succ]

/-- Claim C1 witness: the theorem applied at a concrete 2x10 image cut
into 3 parts. -/
theorem cut_image_vertically_exact_cover_witness :
    1 ≤ 3 ∧
    ∃ strips : List (Int × Int),
      cut_image_vertically 2 10 ((3 : Nat) : Int) = Except.ok strips ∧
      strips.length = 3 ∧
      (∀ s ∈ strips, s.1 = ((2 : Nat) : Int)) ∧
      (∀ i : Nat, i < 3 - 1 → strips[i]? =
        some (((2 : Nat) : Int), ((10 / 3 : Nat) : Int))) ∧
      strips.getLast? =
        some (((2 : Nat) : Int),
          ((10 : Nat) : Int) - ((3 - 1 : Nat) : Int) * ((10 / 3 : Nat) : Int)) ∧
      (strips.map Prod.snd).sum = ((10 : Nat) : Int) ∧
      (3 = 1 → strips = [(((2 : Nat) : Int), ((10 : Nat) : Int))]) :=
  ⟨by omega, cut_image_vertically_exact_cover 2 10 3 (by omega)⟩

/-- Claim C6 counterexample: at `num_parts = -1` the slicer does not fail
at all - `range(-1)` is empty, so the source returns an empty strip list,
refuting "fails with an invalid-argument condition whenever numParts < 1". -/
theorem cut_image_vertically_negative_counterexample :
    cut_image_vertically 5 10 (-1) = Except.ok [] := by decide

/-- Claim C6 (amended): for `num_parts = 0` the slicer raises
`ZeroDivisionError` at `height // num_parts`; for negative `num_parts` it
returns an empty strip list without failing. -/
theorem cut_image_vertically_nonpositive (width height : Nat) (p : Int) (hp : p < 1) :
    cut_image_vertically width height p =
      if p = 0 then Except.error "ZeroDivisionError" else Except.ok [] := by
  by_cases h0 : p = 0
  · rw [if_pos h0]
    unfold cut_image_vertically
    rw [if_pos h0]
  · rw [if_neg h0]
    unfold cut_image_vertically
    rw [if_neg h0]
    have ht : p.toNat = 0 := Int.toNat_of_nonpos (by omega)
    rw [ht]
    rfl

/-- Claim C6 witness: the amended theorem applied at `num_parts = -2`. -/
theorem cut_image_vertically_nonpositive_witness :
    (-2 : Int) < 1 ∧
      cut_image_vertically 3 7 (-2) =
        if (-2 : Int) = 0 then Except.error "ZeroDivisionError" else Except.ok [] :=
  ⟨by decide, cut_image_vertically_nonpositive 3 7 (-2) (by decide)⟩

/-- Claim C2 counterexample: the extension set is not case-insensitive.
The alternation is the six literals `png|jpg|jpeg|PNG|JPG|JPEG`, with no
`re.IGNORECASE`, so the case variant `a-1.Png` is rejected by both codec
functions where the claim requires `1` and `"a"`. -/
theorem codec_mixed_case_counterexample :
    extract_page_count "a-1.Png" = none ∧ get_base_filename "a-1.Png" = none := by
  exact ⟨by decide, by decide⟩

/-- Claim C2 (amended): for every filename `<base>-<N>.<ext>` with `base`
non-empty, `N` a non-empty digit string, and `ext` one of the six literal
alternatives png, jpg, jpeg, PNG, JPG, JPEG (not arbitrary case variants),
`extract_page_count` returns `N` and `get_base_filename` returns `base`
exactly, including when `base` itself contains hyphens or digits. -/
theorem codec_parses_canonical_filenames (base ds ext : List Char)
    (hb : base ≠ []) (hds : ds ≠ []) (hdig : ∀ c ∈ ds, c.isDigit)
    (hext : ext ∈ allowedExts) :
    extract_page_count (base ++ '-' :: (ds ++ '.' :: ext)).asString =
        some (digitsToNat ds) ∧
      get_base_filename (base ++ '-' :: (ds ++ '.' :: ext)).asString =
        some base.asString :=
  ⟨extract_page_count_canonical base ds ext hds hdig hext,
   get_base_filename_canonical base ds ext hb hds hdig hext⟩

/-- Claim C2 witness: the amended theorem applied to `a-1b-07.jpg`, whose
base `a-1b` contains a hyphen and a digit. -/
theorem codec_parses_canonical_filenames_witness :
    (['a', '-', '1', 'b'] : List Char) ≠ [] ∧
    (['0', '7'] : List Char) ≠ [] ∧
    (∀ c ∈ (['0', '7'] : List Char), c.isDigit) ∧
    (['j', 'p', 'g'] : List Char) ∈ allowedExts ∧
    (extract_page_count
        (['a', '-', '1', 'b'] ++ '-' :: (['0', '7'] ++ '.' :: ['j', 'p', 'g'])).asString =
        some (digitsToNat ['0', '7']) ∧
      get_base_filename
        (['a', '-', '1', 'b'] ++ '-' :: (['0', '7'] ++ '.' :: ['j', 'p', 'g'])).asString =
        some (['a', '-', '1', 'b'] : List Char).asString) :=
  ⟨by decide, by decide, by decide, by decide,
    codec_parses_canonical_filenames ['a', '-', '1', 'b'] ['0', '7'] ['j', 'p', 'g']
      (by decide) (by decide) (by decide) (by decide)⟩

/-- Claim C5 counterexample: called on the empty image sequence,
`images_to_pdf` hits `if not images: return` and silently returns without
writing anything - there is no invalid-argument failure. -/
theorem images_to_pdf_empty_counterexample :
    images_to_pdf [] = PdfOutcome.noWrite := by decide

/-- Claim C5 (amended): on an empty sequence `images_to_pdf` returns
without writing a file (a silent no-op, not a failure); on a non-empty
sequence it writes exactly one document with one page per input image in
sequence order, each page the RGB-normalization of the corresponding
input, so a single image yields a valid one-page document. -/
theorem images_to_pdf_pages (images : List PImage) :
    (images = [] → images_to_pdf images = PdfOutcome.noWrite) ∧
    (images ≠ [] → ∃ pages, images_to_pdf images = PdfOutcome.wrote pages ∧
      pages.length = images.length ∧
      (∀ i : Nat, pages[i]?.map PImage.tag = images[i]?.map PImage.tag) ∧
      (∀ p ∈ pages, p.mode = ImgMode.RGB)) := by
  constructor
  · intro h; rw [h]; rfl
  · intro h
    refine ⟨images.map (fun img =>
      if img.mode ≠ ImgMode.RGB then { img with mode := ImgMode.RGB } else img),
      ?_, by simp, ?_, ?_⟩
    · unfold images_to_pdf
      rw [if_neg h, ite_self]
    · intro i
      rw [List.getElem?_map]
      cases images[i]? with
      | none => rfl
      | some img =>
        by_cases hm : img.mode = ImgMode.RGB <;> simp [hm]
    · intro p hp
      rw [List.mem_map] at hp
      obtain ⟨img, -, rfl⟩ := hp
      by_cases hm : img.mode = ImgMode.RGB <;> simp [hm]

/-- Claim C5 witness: the amended theorem applied to a single palette-mode
image. -/
theorem images_to_pdf_pages_witness :
    ([⟨ImgMode.P, 5⟩] : List PImage) ≠ [] ∧
    (∃ pages, images_to_pdf [⟨ImgMode.P, 5⟩] = PdfOutcome.wrote pages ∧
      pages.length = ([⟨ImgMode.P, 5⟩] : List PImage).length ∧
      (∀ i : Nat, pages[i]?.map PImage.tag =
        (([⟨ImgMode.P, 5⟩] : List PImage))[i]?.map PImage.tag) ∧
      (∀ p ∈ pages, p.mode = ImgMode.RGB)) :=
  ⟨by decide, (images_to_pdf_pages [⟨ImgMode.P, 5⟩]).2 (by decide)⟩

/-- Claim C8 counterexample: `save_cut_images` does not create a missing
output directory: with an absent directory the first `img.save` raises
`FileNotFoundError`, refuting "creating that directory first if it is
absent" (it is `process_folder`, not the writer, that runs `os.makedirs`). -/
theorem save_cut_images_missing_dir_counterexample :
    save_cut_images [⟨ImgMode.RGB, 0⟩] "b" "out" ⟨[], []⟩ =
      Except.error "FileNotFoundError" := by decide

/-- Claim C8 (amended): provided the output directory already exists (the
orchestrator creates it beforehand with `os.makedirs`), `save_cut_images`
writes exactly one file per strip, named `{base}-第{i}页.png` with 1-based
index `i` matching strip order, and returns the written paths in that same
order; the writer itself never creates the directory. -/
theorem save_cut_images_writes_in_order (images : List PImage)
    (base out : String) (fs : StripFS) (hdir : out ∈ fs.dirs) :
    save_cut_images images base out fs =
      Except.ok (stripPaths out base images.length 1,
        { fs with files := fs.files ++ stripPaths out base images.length 1 }) := by
  unfold save_cut_images
  rw [saveLoop_ok base out images 1 fs [] hdir]
  rw [List.nil_append]

/-- Claim C8 witness: the amended theorem applied to two strips with the
directory present, evaluated to the concrete paths in order. -/
theorem save_cut_images_writes_in_order_witness :
    save_cut_images [⟨ImgMode.RGB, 0⟩, ⟨ImgMode.RGB, 1⟩] "r" "o" ⟨["o"], []⟩ =
      Except.ok (["o/r-第1页.png", "o/r-第2页.png"],
        ⟨["o"], ["o/r-第1页.png", "o/r-第2页.png"]⟩) := by
  rw [save_cut_images_writes_in_order [⟨ImgMode.RGB, 0⟩, ⟨ImgMode.RGB, 1⟩] "r" "o"
    ⟨["o"], []⟩ (by decide)]
  decide

/-- Claim C7: a filename that does not match the trailing
`-<digits>.<ext>` pattern is rejected by both codec functions, and the
orchestrator's entire result (counters and log alike) is unchanged by that
file's presence anywhere in the listing: it is dropped by the discovery
filter, so success and failure counts are unaffected. -/
theorem nonmatching_skipped_everywhere (f : String)
    (h : extract_page_count f = none) (env : FolderEnv) (l₁ l₂ : List String) :
    get_base_filename f = none ∧
      process_folder { env with listing := l₁ ++ f :: l₂ } =
        process_folder { env with listing := l₁ ++ l₂ } := by
  refine ⟨get_base_none_of_extract_none f h, ?_⟩
  have hfilter : (l₁ ++ f :: l₂).filter discoveryMatches =
      (l₁ ++ l₂).filter discoveryMatches := by
    have hdf : discoveryMatches f = false := by
      unfold discoveryMatches; rw [h]; rfl
    rw [List.filter_append, List.filter_append, List.filter_cons, hdf]
    simp
  obtain ⟨d, mk, ld, L, ff⟩ := env
  simp only [process_folder, hfilter]

/-- Claim C7 witness: the theorem applied to `notes.png` inserted after a
matching file. -/
theorem nonmatching_skipped_everywhere_witness :
    extract_page_count "notes.png" = none ∧
    (get_base_filename "notes.png" = none ∧
      process_folder { (⟨true, false, false, [], fun _ => false⟩ : FolderEnv) with
          listing := ["a-1.png"] ++ "notes.png" :: [] } =
        process_folder { (⟨true, false, false, [], fun _ => false⟩ : FolderEnv) with
          listing := ["a-1.png"] ++ [] }) :=
  ⟨by decide, nonmatching_skipped_everywhere "notes.png" (by decide)
    ⟨true, false, false, [], fun _ => false⟩ ["a-1.png"] []⟩

/-- Claim C3 counterexample: `os.makedirs(output_folder, exist_ok=True)`
at line 389 runs outside any `try`, so an output-directory creation
failure escapes `process_folder` as a raw exception, refuting "never
propagating a raw exception". -/
theorem process_folder_makedirs_counterexample :
    process_folder ⟨true, true, false, ["a-1.png"], fun _ => false⟩ =
      Except.error "OSError: cannot create output folder" := by decide

/-- Claim C3 (amended): two setup calls run outside any `try` and their
exceptions propagate out of `process_folder` as raw exceptions: the
output-directory creation (`os.makedirs`, line 389) and the input
directory listing (`os.listdir`, line 392, which can raise even after
`os.path.isdir` succeeded, e.g. on an unreadable directory).  Apart from
these two, every failure is converted into log messages and counters and
a result is returned: an invalid input directory and an empty discovery
yield plain results, and each per-file exception during slicing, writing,
or assembly is caught and counted as exactly one failure with processing
continuing, so the final error count is the number of discovered,
non-skipped files whose processing raised (and the success count the
number that succeeded). -/
theorem process_folder_no_escape (env : FolderEnv)
    (hmk : env.makedirsFails = false) (hld : env.listdirFails = false) :
    ∃ r : FolderResult, process_folder env = Except.ok r ∧
      (env.isDir = true →
        r.error_count =
          ((env.listing.filter discoveryMatches).filter (fileErrors env.fileFails)).length ∧
        r.success_count =
          ((env.listing.filter discoveryMatches).filter (fileSucceeds env.fileFails)).length) := by
  by_cases hdir : env.isDir = true
  · by_cases hne : env.listing.filter discoveryMatches = []
    · refine ⟨⟨false, [LogEvent.noFiles], 0, 0⟩, ?_, ?_⟩
      · simp only [process_folder]
        rw [if_neg (by simp [hdir]), if_neg (by simp [hmk]), if_neg (by simp [hld]),
          if_pos hne]
      · intro _
        rw [hne]
        exact ⟨rfl, rfl⟩
    · refine ⟨_, process_folder_run env hdir hmk hld hne, ?_⟩
      intro _
      exact ⟨rfl, rfl⟩
  · refine ⟨⟨false, [LogEvent.invalidDir], 0, 0⟩, ?_, ?_⟩
    · simp only [process_folder]
      rw [if_pos (by simp at hdir ⊢; exact hdir)]
    · intro hd; exact absurd hd hdir

/-- A listing failure escapes `process_folder` just like the `makedirs`
one: the `os.listdir` call is equally outside the `try`. -/
theorem process_folder_listdir_raises :
    process_folder ⟨true, false, true, [], fun _ => false⟩ =
      Except.error "OSError: cannot list input folder" := by decide

/-- Claim C3 witness: the amended theorem applied to a run whose single
discovered file fails during processing. -/
theorem process_folder_no_escape_witness :
    (⟨true, false, false, ["bad-2.png"], fun _ => true⟩ : FolderEnv).makedirsFails = false ∧
    (⟨true, false, false, ["bad-2.png"], fun _ => true⟩ : FolderEnv).listdirFails = false ∧
    ∃ r : FolderResult,
      process_folder ⟨true, false, false, ["bad-2.png"], fun _ => true⟩ = Except.ok r ∧
      ((⟨true, false, false, ["bad-2.png"], fun _ => true⟩ : FolderEnv).isDir = true →
        r.error_count = ((["bad-2.png"].filter discoveryMatches).filter
          (fileErrors (fun _ => true))).length ∧
        r.success_count = ((["bad-2.png"].filter discoveryMatches).filter
          (fileSucceeds (fun _ => true))).length) :=
  ⟨rfl, rfl,
    process_folder_no_escape ⟨true, false, false, ["bad-2.png"], fun _ => true⟩ rfl rfl⟩

/-- Claim C4 counterexample: on a valid directory with no matching file,
`process_folder` does log an explanatory message and end with zero
successes and zero failures without crashing, but it returns `False` -
the very same failure signal as an invalid input directory (the caller
then shows the "problems occurred" alert) - refuting "not a failure
signal". -/
theorem process_folder_empty_false_counterexample :
    process_folder ⟨true, false, false, ["notes.png", "a.txt"], fun _ => false⟩ =
      Except.ok ⟨false, [LogEvent.noFiles], 0, 0⟩ := by decide

/-- Claim C4 (amended): with a valid input directory and no filename
matching the pattern, `process_folder` returns - without raising - a
result with an explanatory log message and zero successes and zero
failures, but its boolean component is `False`, the failure signal, not a
distinct non-error outcome. -/
theorem process_folder_no_matches_result (env : FolderEnv)
    (hdir : env.isDir = true) (hmk : env.makedirsFails = false)
    (hld : env.listdirFails = false)
    (hempty : env.listing.filter discoveryMatches = []) :
    process_folder env = Except.ok ⟨false, [LogEvent.noFiles], 0, 0⟩ := by
  simp only [process_folder]
  rw [if_neg (by simp [hdir]), if_neg (by simp [hmk]), if_neg (by simp [hld]),
    if_pos hempty]

/-- Claim C4 witness: the amended theorem applied to an empty listing. -/
theorem process_folder_no_matches_result_witness :
    (⟨true, false, false, [], fun _ => false⟩ : FolderEnv).isDir = true ∧
    (⟨true, false, false, [], fun _ => false⟩ : FolderEnv).makedirsFails = false ∧
    (⟨true, false, false, [], fun _ => false⟩ : FolderEnv).listdirFails = false ∧
    ((⟨true, false, false, [], fun _ => false⟩ : FolderEnv).listing.filter discoveryMatches = []) ∧
    process_folder ⟨true, false, false, [], fun _ => false⟩ =
      Except.ok ⟨false, [LogEvent.noFiles], 0, 0⟩ :=
  ⟨rfl, rfl, rfl, rfl,
    process_folder_no_matches_result ⟨true, false, false, [], fun _ => false⟩ rfl rfl rfl rfl⟩

/-- Claim C9: the boolean returned by `process_folder` is `True` exactly
when the input directory is valid and at least one listed file matches
the discovery pattern; per-file outcomes play no role, so it is `True`
even when every discovered file failed. -/
theorem process_folder_success_signal (env : FolderEnv) (r : FolderResult)
    (h : process_folder env = Except.ok r) :
    r.success = true ↔
      (env.isDir = true ∧ env.listing.filter discoveryMatches ≠ []) := by
  by_cases hdir : env.isDir = true
  · by_cases hmk : env.makedirsFails = true
    · exfalso
      simp only [process_folder] at h
      rw [if_neg (by simp [hdir]), if_pos hmk] at h
      exact Except.noConfusion h
    · have hmk' : env.makedirsFails = false := by simpa using hmk
      by_cases hld : env.listdirFails = true
      · exfalso
        simp only [process_folder] at h
        rw [if_neg (by simp [hdir]), if_neg (by simp [hmk']), if_pos hld] at h
        exact Except.noConfusion h
      · have hld' : env.listdirFails = false := by simpa using hld
        by_cases hne : env.listing.filter discoveryMatches = []
        · simp only [process_folder] at h
          rw [if_neg (by simp [hdir]), if_neg (by simp [hmk']),
            if_neg (by simp [hld']), if_pos hne] at h
          rw [← Except.ok.inj h]
          simp [hne, hdir]
        · rw [process_folder_run env hdir hmk' hld' hne] at h
          rw [← Except.ok.inj h]
          simp [hdir, hne]
  · simp only [process_folder] at h
    rw [if_pos (by simp at hdir ⊢; exact hdir)] at h
    rw [← Except.ok.inj h]
    simp [hdir]

/-- Claim C9 witness: a run whose only discovered file fails is still
reported with `True`. -/
theorem process_folder_success_signal_witness :
    process_folder ⟨true, false, false, ["a-2.png"], fun _ => true⟩ =
      Except.ok ⟨true, [LogEvent.found 1, LogEvent.processing "a-2.png" 2,
        LogEvent.fileError "a-2.png", LogEvent.summary 0 1], 0, 1⟩ ∧
    ((⟨true, [LogEvent.found 1, LogEvent.processing "a-2.png" 2,
        LogEvent.fileError "a-2.png", LogEvent.summary 0 1], 0, 1⟩ : FolderResult).success = true ↔
      ((⟨true, false, false, ["a-2.png"], fun _ => true⟩ : FolderEnv).isDir = true ∧
        (⟨true, false, false, ["a-2.png"], fun _ => true⟩ : FolderEnv).listing.filter
          discoveryMatches ≠ [])) :=
  ⟨by decide, process_folder_success_signal ⟨true, false, false, ["a-2.png"], fun _ => true⟩
    ⟨true, [LogEvent.found 1, LogEvent.processing "a-2.png" 2,
      LogEvent.fileError "a-2.png", LogEvent.summary 0 1], 0, 1⟩ (by decide)⟩

/-- Claim C10 counterexample: `-5.png` passes the discovery filter and
`extract_page_count` returns 5, but `get_base_filename` needs a non-empty
base (`(.+?)`) and returns `None`, so the run takes the "cannot extract
base filename" skip branch: one discovered file is skipped, refuting
"the number of skipped files among discovered candidates is always zero". -/
theorem discovered_skip_counterexample :
    process_folder ⟨true, false, false, ["-5.png"], fun _ => false⟩ =
      Except.ok ⟨true,
        [LogEvent.found 1, LogEvent.processing "-5.png" 5,
         LogEvent.skipNoBase "-5.png", LogEvent.summary 0 0], 0, 0⟩ := by decide

/-- Claim C10 (amended): the discovery filter is the same regex as
`extract_page_count`, so the "cannot extract page count" skip branch is
indeed unreachable - no run ever logs a `skipNoPageCount` event; but the
"cannot extract base filename" branch is reachable (a filename whose base
would be empty, such as `-5.png`), so the skipped count among discovered
candidates is not always zero. -/
theorem no_skip_page_count_event (env : FolderEnv) (r : FolderResult)
    (h : process_folder env = Except.ok r) (g : String) :
    LogEvent.skipNoPageCount g ∉ r.logs := by
  by_cases hdir : env.isDir = true
  · by_cases hmk : env.makedirsFails = true
    · exfalso
      simp only [process_folder] at h
      rw [if_neg (by simp [hdir]), if_pos hmk] at h
      exact Except.noConfusion h
    · have hmk' : env.makedirsFails = false := by simpa using hmk
      by_cases hld : env.listdirFails = true
      · exfalso
        simp only [process_folder] at h
        rw [if_neg (by simp [hdir]), if_neg (by simp [hmk']), if_pos hld] at h
        exact Except.noConfusion h
      · have hld' : env.listdirFails = false := by simpa using hld
        by_cases hne : env.listing.filter discoveryMatches = []
        · simp only [process_folder] at h
          rw [if_neg (by simp [hdir]), if_neg (by simp [hmk']),
            if_neg (by simp [hld']), if_pos hne] at h
          rw [← Except.ok.inj h]
          simp
        · rw [process_folder_run env hdir hmk' hld' hne] at h
          rw [← Except.ok.inj h]
          intro hmem
          simp only [List.mem_append, List.mem_cons] at hmem
          rcases hmem with (hmem | hmem) | hmem
          · exact LogEvent.noConfusion hmem
          · refine filesLog_no_skipNoPageCount env.fileFails
              (env.listing.filter discoveryMatches) ?_ g hmem
            intro x hx
            have := (List.mem_filter.mp hx).2
            unfold discoveryMatches at this
            exact this
          · simp at hmem
  · simp only [process_folder] at h
    rw [if_pos (by simp at hdir ⊢; exact hdir)] at h
    rw [← Except.ok.inj h]
    simp

/-- Claim C10 witness: the amended theorem applied to a concrete run. -/
theorem no_skip_page_count_event_witness :
    process_folder ⟨true, false, false, ["a-1.png"], fun _ => false⟩ =
      Except.ok ⟨true, [LogEvent.found 1, LogEvent.processing "a-1.png" 1,
        LogEvent.fileDone "a-1.png", LogEvent.summary 1 0], 1, 0⟩ ∧
    LogEvent.skipNoPageCount "-5.png" ∉
      (⟨true, [LogEvent.found 1, LogEvent.processing "a-1.png" 1,
        LogEvent.fileDone "a-1.png", LogEvent.summary 1 0], 1, 0⟩ : FolderResult).logs :=
  ⟨by decide, no_skip_page_count_event ⟨true, false, false, ["a-1.png"], fun _ => false⟩
    ⟨true, [LogEvent.found 1, LogEvent.processing "a-1.png" 1,
      LogEvent.fileDone "a-1.png", LogEvent.summary 1 0], 1, 0⟩ (by decide) "-5.png"⟩

end PictureCut
